import Mathlib

/-!
Shallow embedding of the asynchronous header-verification pipeline in
`consensus/process/process.go` (package `process`).

Machine integers: Go `uint64` values are modelled as `Nat`, with wrapping
subtraction/addition made explicit (`usub`, `uadd`) at exactly the places the
Go code subtracts or adds `uint64`s.  Hashes (`common.Hash`) are opaque and
modelled as `Nat`.  Time (`time.Time`) is a `Nat` tick count; `ttl` is one
minute, modelled as `60`.

The Go maps `ProcessingRequests : map[uint64]map[uint64]*VerifyRequest` are
modelled as key-unique association lists; the ephemeral dedup maps in
`appendAncestors` are modelled as function maps.  Channel sends to
`VerifyHeaderResponses` / `HeadersRequests` are modelled by appending to the
`responses` / `headersRequests` lists of the `State`.  The two external
collaborators are parameters: `needed` models `Server.NeededForVerification`
and `verify` models `Server.Verify` (returning `none` for success, i.e. a nil
error).  The asynchronous `CleanupCh` removal path of `verifyByRequest` is
collapsed to its synchronous fallback `cleanupRequest`, which is the same map
mutation.
-/

namespace Process

/-- The modulus of Go `uint64` arithmetic. -/
def U : Nat := 2 ^ 64

/-- Wrapping `uint64` subtraction (both operands assumed `< U`, as all modelled
values are). -/
def usub (a b : Nat) : Nat := (a + U - b) % U

/-- Wrapping `uint64` addition. -/
def uadd (a b : Nat) : Nat := (a + b) % U

/-- `time.Minute`: the default deadline offset `ttl` from `process.go`. -/
def ttl : Nat := 60

/-- A block header (`types.Header`), restricted to the three observations the
pipeline makes of it: `Number.Uint64()`, `ParentHash`, and `Hash()`. -/
structure Header where
  number : Nat
  parentHash : Nat
  hash : Nat
deriving DecidableEq

/-- The error kinds a `VerifyHeaderResponse` can carry: `errEmptyHeader`, the
cleanup `"timeout"` error, a fetch error forwarded from a `HeaderResponse`,
and a rule-engine rejection from `Server.Verify` (payloads keep distinct
errors distinct). -/
inductive Err where
  | empty
  | timeout
  | fetch (code : Nat)
  | rule (code : Nat)
deriving DecidableEq

/-- `consensus.VerifyHeaderResponse{ID, Hash, Err}`. -/
structure VerifyHeaderResponse where
  id : Nat
  hash : Nat
  err : Option Err
deriving DecidableEq

/-- `consensus.HeadersRequest{ID, HighestHash, HighestBlockNumber, Number}`:
"fetch `number` ancestors walking back from `highestHash`". -/
structure HeadersRequest where
  id : Nat
  highestHash : Nat
  highestBlockNumber : Nat
  number : Nat
deriving DecidableEq

/-- `consensus.VerifyRequest`: a pending verification.  Field order and names
follow the positional construction in `toVerifyRequest`:
`{reqID, header, seal, deadline, knownParents, parentsToValidate, From, To}`. -/
structure VerifyRequest where
  id : Nat
  header : Header
  sealFlag : Bool
  deadline : Nat
  knownParents : List Header
  parentsExpected : Nat
  rangeFrom : Nat
  rangeTo : Nat
deriving DecidableEq

/-- `API.ProcessingRequests : map[uint64]map[uint64]*VerifyRequest`,
modelled as a key-unique association list of association lists. -/
abbrev Registry : Type := List (Nat × List (Nat × VerifyRequest))

/-- The observable state of the pipeline: the header cache, the pending
registry, and the two outgoing channels (modelled as ordered logs). -/
structure State where
  cache : List Header
  registry : List (Nat × List (Nat × VerifyRequest))
  responses : List VerifyHeaderResponse
  headersRequests : List HeadersRequest
deriving DecidableEq

/-- `API.GetCachedHeader(hash, number)`: lookup by hash and number. -/
def GetCachedHeader (cache : List Header) (h n : Nat) : Option Header :=
  cache.find? (fun hd => hd.hash == h && hd.number == n)

/-- `API.CacheHeader(header)`. -/
def CacheHeader (cache : List Header) (hd : Header) : List Header :=
  hd :: cache

/-- Replace the binding of key `k` (or append it): the model of a Go map
assignment `m[k] = v` on a key-unique association list. -/
def upsert {α : Type} : List (Nat × α) → Nat → α → List (Nat × α)
  | [], k, v => [(k, v)]
  | (k', v') :: rest, k, v =>
    if k' = k then (k, v) :: rest else (k', v') :: upsert rest k v

/-- The model of Go `delete(m, k)`. -/
def eraseKey {α : Type} (l : List (Nat × α)) (k : Nat) : List (Nat × α) :=
  l.filter (fun p => p.1 != k)

/-- Insert into a list sorted ascending by `key`, using the strict `<`
comparator that `sort.Slice` is given in `process.go`. -/
def insertByNum {α : Type} (key : α → Nat) (a : α) : List α → List α
  | [] => [a]
  | b :: rest => if key a < key b then a :: b :: rest else b :: insertByNum key a rest

/-- Model of `sort.Slice(xs, func(i, j) { xs[i] < xs[j] })`: ascending by
`key` (Go's sort is unstable, so tie order is unspecified there; the model
fixes one). -/
def sortByNum {α : Type} (key : α → Nat) (l : List α) : List α :=
  l.foldr (insertByNum key) []

/-- A default header value for the (caller-guaranteed-unreachable) partial
indexing `reqHeaders[0]` on an empty slice. -/
def dummyHeader : Header := ⟨0, 0, 0⟩

/-- `toVerifyRequest`: builds the pending entry; note the window bounds
`From = number - parentsToValidate` and
`To = number - len(knownParents) - 1` use wrapping `uint64` subtraction. -/
def toVerifyRequest (reqID : Nat) (header : Header) (sealFlag : Bool) (deadline : Nat)
    (knownParents : List Header) (parentsToValidate : Nat) : VerifyRequest :=
  ⟨reqID, header, sealFlag, deadline, knownParents, parentsToValidate,
   usub header.number parentsToValidate,
   usub (usub header.number knownParents.length) 1⟩

/-- `addVerifyHeaderRequest`: registers a pending entry under
`(reqID, header.Number)`. -/
def addVerifyHeaderRequest (st : State) (reqID : Nat) (header : Header) (sealFlag : Bool)
    (deadline : Nat) (knownParentsSlice : List Header) (parentsToValidate : Nat) : State :=
  let request := toVerifyRequest reqID header sealFlag deadline knownParentsSlice parentsToValidate
  let blocks := (List.lookup reqID st.registry).getD []
  { st with registry := upsert st.registry reqID (upsert blocks header.number request) }

/-- `cleanupRequest`: removes a finished `(reqID, number)` entry, dropping the
request id entirely when its inner map becomes empty. -/
def cleanupRequest (reg : List (Nat × List (Nat × VerifyRequest))) (reqID number : Nat) :
    List (Nat × List (Nat × VerifyRequest)) :=
  match List.lookup reqID reg with
  | none => reg
  | some blocks =>
    let blocks' := eraseKey blocks number
    if blocks'.length = 0 then eraseKey reg reqID else upsert reg reqID blocks'

/-- `verifyByRequest`: if not all parents are gathered, returns
`errNotAllParents` (modelled as `false`); otherwise runs `Server.Verify`,
caches the header on success, emits the per-header response carrying the rule
engine's error, removes the finished entry, and returns nil (`true`) whether
or not the rule engine accepted the header. -/
def verifyByRequest (verify : Header → List Header → Bool → Bool → Option Err)
    (st : State) (reqID : Nat) (header : Header) (sealFlag : Bool)
    (parentsExpected : Nat) (knownParents : List Header) : Bool × State :=
  if knownParents.length ≠ parentsExpected then (false, st)
  else
    let err := verify header knownParents false sealFlag
    let cache' := match err with
      | none => CacheHeader st.cache header
      | some _ => st.cache
    (true,
     { st with
        cache := cache',
        responses := st.responses ++ [⟨reqID, header.hash, err⟩],
        registry := cleanupRequest st.registry reqID header.number })

/-- `checkHeadersFromRange`: slices the in-batch ancestors
`requestedHeaders[idx-parentsToGet : idx]` below the header's own position.
(The `uint64` subtraction `parentsToValidate - parentsToGet` is modelled with
truncating `Nat` subtraction: every call site passes
`parentsToGet ≤ parentsToValidate`.) -/
def checkHeadersFromRange (highestHeader : Header) (requestedHeaders : List Header)
    (parentsToGet parentsToValidate : Nat) : List Header :=
  let ptg := parentsToValidate - parentsToGet
  if ptg = 0 then []
  else
    match requestedHeaders.findIdx? (fun h => h.number == highestHeader.number) with
    | none => []
    | some idx =>
      if idx < ptg then []
      else (requestedHeaders.drop (idx - ptg)).take ptg

/-- Go's `int64(x)` reading of a `uint64` value: the two's-complement
reinterpretation of the low 64 bits (also the observable behavior of
`big.Int.Int64()` on `header.Number`). -/
def toInt64 (x : Nat) : Int :=
  if x % U < 2 ^ 63 then ((x % U : Nat) : Int) else ((x % U : Nat) : Int) - (U : Int)

/-- Wrap an integer into `int64` range, as Go `int64` arithmetic does on
overflow. -/
def wrapInt64 (x : Int) : Int :=
  if x % (U : Int) < 2 ^ 63 then x % (U : Int) else x % (U : Int) - (U : Int)

/-- The cache walk of `requestHeadersNotFromRange`: follow parent-hash links
downward from block `num` through at most `fuel` block numbers (the loop's
iteration space `highestBlock` down to `minHeader`), stopping at the first
cache miss. -/
def cacheWalk (cache : List Header) : Nat → Nat → Nat → List Header
  | 0, _, _ => []
  | fuel + 1, num, hk =>
    match GetCachedHeader cache hk num with
    | none => []
    | some p => p :: cacheWalk cache fuel (num - 1) p.parentHash

/-- `requestHeadersNotFromRange`: collects the cached ancestor prefix below
`highestBlock` and returns it together with the residual `HeadersRequest`
(count `parentsToGet - len(known)`).  The Go loop condition
`parentBlockNum >= minHeader` on a `uint64` counter is modelled by the finite
fuel `highestBlock + 1 - minHeader`; the two behave identically unless the
cache resolves every one of the `2^64` block numbers (the Go loop then wraps
past zero and never terminates). -/
def requestHeadersNotFromRange (cache : List Header) (reqID highestBlock highestKnown parentsToGet : Nat) :
    List Header × HeadersRequest :=
  let minHeader := if usub parentsToGet 1 < highestBlock then highestBlock - parentsToGet + 1 else 0
  let known := cacheWalk cache (highestBlock + 1 - minHeader) highestBlock highestKnown
  let hp := known.foldl
    (fun acc p => if acc.1 < p.number then (p.number, p.hash) else acc)
    (highestBlock, highestKnown)
  (known, ⟨reqID, hp.2, hp.1, usub parentsToGet known.length⟩)

/-- `requestParentHeaders`: computes, for one header of a sorted batch, the
already-known parents, the number of parents the rule engine expects, and the
per-header ancestor fetch request (`none` exactly when no ancestors are
required at all).  The comparison `n >= from+uint64(parentsToValidate)` uses
wrapping `uint64` addition (`uadd`), and `parentsToAsk` is computed with
two's-complement `int64` arithmetic (`toInt64` for the `uint64`/`big.Int`
operands, `wrapInt64` for each subtraction; `parentsToValidate` itself is a Go
`int`, cast exactly), then converted back with `uint64` wrapping — all as at
`process.go` lines 317-332. -/
def requestParentHeaders (needed : Header → Nat) (cache : List Header) (reqID : Nat)
    (header : Header) (reqHeaders : List Header) :
    List Header × Nat × Option HeadersRequest :=
  let parentsToValidate := needed header
  if parentsToValidate = 0 then ([], 0, none)
  else
    let n := header.number
    let fromN := (reqHeaders.headD dummyHeader).number
    let toN := (reqHeaders.getLastD dummyHeader).number
    let parentsToAsk : Int :=
      if fromN < n ∧ n ≤ toN then
        (if uadd fromN parentsToValidate ≤ n then 0
         else wrapInt64 (toInt64 fromN -
           wrapInt64 (toInt64 n - (parentsToValidate : Int))))
      else (parentsToValidate : Int)
    let ptaN : Nat := (parentsToAsk % (U : Int)).toNat
    let headerNumber := if 0 < parentsToAsk then usub fromN 1 else n
    let headerParentHash :=
      if 0 < parentsToAsk then (reqHeaders.headD dummyHeader).parentHash else header.parentHash
    let walked := requestHeadersNotFromRange cache reqID headerNumber headerParentHash ptaN
    let knownFromRange := checkHeadersFromRange header reqHeaders ptaN parentsToValidate
    (walked.1 ++ knownFromRange, parentsToValidate, some walked.2)

/-- `sumHeadersRequestsInRange`: merges the batch's accumulated per-header
fetch requests into one; `.error ()` is `errNothingToAsk` (empty input).  The
fold state is `(maxBlockNumber, maxBlockHash, minBlockToGet)`, seeded from
`reqs[0]` exactly as in the source (before any id / zero-count filtering). -/
def sumHeadersRequestsInRange (reqID fromN : Nat) (reqs : List HeadersRequest) :
    Except Unit HeadersRequest :=
  match reqs with
  | [] => .error ()
  | r0 :: _ =>
    let init : Nat × Nat × Nat :=
      (r0.highestBlockNumber, r0.highestHash, uadd (usub r0.highestBlockNumber r0.number) 1)
    let res := reqs.foldl
      (fun acc req =>
        if req.id ≠ reqID then acc
        else if req.number = 0 then acc
        else
          let acc1 := if acc.1 < req.highestBlockNumber ∧ req.highestBlockNumber < fromN
            then (req.highestBlockNumber, req.highestHash, acc.2.2)
            else acc
          if uadd (usub req.highestBlockNumber req.number) 1 < acc1.2.2
          then (acc1.1, acc1.2.1, uadd (usub req.highestBlockNumber req.number) 1)
          else acc1)
      init
    .ok ⟨reqID, res.2.1, res.1, uadd (usub res.1 res.2.2) 1⟩

/-- The inner dedup map of `appendAncestors`:
`parent hash -> set of block numbers already credited`. -/
abbrev AMap : Type := Nat → Option (List Nat)

/-- `knownByRequests : reqID -> parent hash -> block numbers`. -/
abbrev KBR : Type := Nat → Option AMap

/-- Go map assignment `m[k] = v` on a function map. -/
def insertA (m : AMap) (k : Nat) (v : List Nat) : AMap :=
  fun x => if x = k then some v else m x

/-- The initialization loop of `appendAncestors`: seed the dedup map with the
entry's existing known parents, each credited to its own block number. -/
def initAMap (bn : Nat) : List Header → AMap → AMap
  | [], m => m
  | p :: rest, m => initAMap bn rest (insertA m p.hash [bn])

/-- The ancestor loop of `appendAncestors`: each candidate inside the
`[From, To]` window is appended to the known parents unless the dedup map
already credits its hash to this block number. -/
def foldAncestors (bn fromW toW : Nat) :
    List Header → List Header × AMap → List Header × AMap
  | [], acc => acc
  | p :: rest, (known, m) =>
    if fromW ≤ p.number ∧ p.number ≤ toW then
      match m p.hash with
      | none => foldAncestors bn fromW toW rest (known ++ [p], insertA m p.hash [bn])
      | some pm =>
        if bn ∈ pm then foldAncestors bn fromW toW rest (known, m)
        else foldAncestors bn fromW toW rest (known ++ [p], insertA m p.hash [bn])
    else foldAncestors bn fromW toW rest (known, m)

/-- `appendAncestors(request, ancestors, knownByRequests)`: folds newly
available ancestors into the pending entry, threading the per-request-id dedup
map (created from the entry's known parents only when the request id has no
map yet). -/
def appendAncestors (request : VerifyRequest) (ancestors : List Header) (kbr : KBR) :
    VerifyRequest × KBR :=
  let bn := request.header.number
  let m0 := match kbr request.id with
    | some m => m
    | none => initAMap bn request.knownParents (fun _ => none)
  let r := foldAncestors bn request.rangeFrom request.rangeTo ancestors (request.knownParents, m0)
  ({ request with knownParents := r.1 },
   fun i => if i = request.id then some r.2 else kbr i)

/-- One iteration of the resolution pass of `VerifyRequestsCommonAncestor`:
fold the pool into the entry at block number `num`, re-attempt verification,
and extend the pool with the entry's header when an attempt was made. -/
def passStep (verify : Header → List Header → Bool → Bool → Option Err) (reqID : Nat)
    (acc : State × List Header × KBR) (num : Nat) : State × List Header × KBR :=
  let st := acc.1
  match List.lookup reqID st.registry with
  | none => acc
  | some blocks =>
    match List.lookup num blocks with
    | none => acc
    | some req =>
      let r := appendAncestors req acc.2.1 acc.2.2
      let st1 := { st with registry := upsert st.registry reqID (upsert blocks num r.1) }
      let vres := verifyByRequest verify st1 r.1.id r.1.header r.1.sealFlag
        r.1.parentsExpected r.1.knownParents
      let pool' := if vres.1 then acc.2.1 ++ [r.1.header] else acc.2.1
      (vres.2, pool', r.2)

/-- `VerifyRequestsCommonAncestor(reqID, headers)`: on a successful ancestor
delivery, cache all delivered headers and process the request id's pending
block numbers in ascending order. -/
def verifyRequestsCommonAncestor (verify : Header → List Header → Bool → Bool → Option Err)
    (st : State) (reqID : Nat) (headers : List Header) : State :=
  if headers.length = 0 then st
  else
    match List.lookup reqID st.registry with
    | none => st
    | some reqBlocks =>
      let nums := sortByNum (fun n => n) (reqBlocks.map (fun b => b.1))
      let st1 := { st with cache := headers.foldl CacheHeader st.cache }
      (nums.foldl (passStep verify reqID) (st1, headers, fun _ => none)).1

/-- The `cleanup` timeout sweep: emits a timeout response for every pending
entry whose deadline lies before `now`, and deletes the whole request id of
any such entry.  Returns the emitted responses and the surviving registry. -/
def cleanupSweep (now : Nat) (reg : List (Nat × List (Nat × VerifyRequest))) :
    List VerifyHeaderResponse × List (Nat × List (Nat × VerifyRequest)) :=
  (reg.flatMap (fun idb =>
     (idb.2.filter (fun b => decide (b.2.deadline < now))).map
       (fun b => ⟨idb.1, b.2.header.hash, some Err.timeout⟩)),
   reg.filter (fun idb => !(idb.2.any (fun b => decide (b.2.deadline < now)))))

/-- `consensus.HeaderResponse{ID, Headers, Hash, Err}`: an ancestor-fetch
result delivered on `HeaderResponses`. -/
structure HeaderResponseMsg where
  id : Nat
  headers : List Header
  hash : Nat
  err : Option Err
deriving DecidableEq

/-- The `HeaderResponses` arm of the event loop: a failed fetch emits a single
error response for the request id and drops the id's whole pending set; a
successful fetch runs the resolution pass. -/
def processHeaderResponse (verify : Header → List Header → Bool → Bool → Option Err)
    (st : State) (r : HeaderResponseMsg) : State :=
  match r.err with
  | some e =>
    { st with
        responses := st.responses ++ [⟨r.id, r.hash, some e⟩],
        registry := eraseKey st.registry r.id }
  | none => verifyRequestsCommonAncestor verify st r.id r.headers

/-- `consensus.VerifyHeaderRequest{ID, Headers, Seal, Deadline}`: an incoming
batch.  Headers are `Option Header` because the Go slice may hold nil
pointers. -/
structure VerifyHeaderRequestMsg where
  id : Nat
  headers : List (Option Header)
  sealFlag : List Bool
  deadline : Option Nat
deriving DecidableEq

/-- The batch sort step.  `sort.Slice` calls the comparator
`reqHeaders[i].header.Number.Cmp(...)`, which dereferences every element's
header once the slice has two or more elements; a nil header there is a Go
runtime panic, modelled as `.error ()`.  A single-element slice is never
compared, so a singleton nil survives to the loop's own nil check. -/
def sortPairs (pairs : List (Option Header × Bool)) :
    Except Unit (List (Option Header × Bool)) :=
  if 2 ≤ pairs.length ∧ pairs.any (fun p => p.1.isNone) then .error ()
  else .ok (sortByNum (fun p => (p.1.getD dummyHeader).number) pairs)

/-- The per-header loop of the `VerifyHeaderRequests` arm, over the sorted
header/seal pairs.  Returns the updated state, the accumulated per-header
fetch requests, and whether a nil header aborted the batch
(`continue eventLoop`). -/
def processHeadersLoop (needed : Header → Nat)
    (verify : Header → List Header → Bool → Bool → Option Err)
    (reqID dl : Nat) (allHeaders : List Header) :
    List (Option Header × Bool) → State → List HeadersRequest →
    State × List HeadersRequest × Bool
  | [], st, reqs => (st, reqs, false)
  | (oh, sealFlag) :: rest, st, reqs =>
    match oh with
    | none => ({ st with responses := st.responses ++ [⟨reqID, 0, some Err.empty⟩] }, reqs, true)
    | some header =>
      match GetCachedHeader st.cache header.hash header.number with
      | some _ =>
        processHeadersLoop needed verify reqID dl allHeaders rest
          { st with responses := st.responses ++ [⟨reqID, header.hash, none⟩] } reqs
      | none =>
        let rp := requestParentHeaders needed st.cache reqID header allHeaders
        let reqs' := reqs ++ rp.2.2.toList
        let vres := verifyByRequest verify st reqID header sealFlag rp.2.1 rp.1
        let st' := if vres.1 then vres.2
          else addVerifyHeaderRequest vres.2 reqID header sealFlag dl rp.1 rp.2.1
        processHeadersLoop needed verify reqID dl allHeaders rest st' reqs'

/-- The `VerifyHeaderRequests` arm of the event loop: reject an empty batch,
default the deadline, copy and sort the header/seal pairs (a nil header in a
multi-element batch panics inside the sort comparator: `.error ()`), run the
per-header loop, and finally merge and emit the batch's ancestor request
unless the loop aborted or there was nothing to ask. -/
def processHeaderBatch (needed : Header → Nat)
    (verify : Header → List Header → Bool → Bool → Option Err)
    (now : Nat) (st : State) (req : VerifyHeaderRequestMsg) : Except Unit State :=
  if req.headers.length = 0 then
    .ok { st with responses := st.responses ++ [⟨req.id, 0, some Err.empty⟩] }
  else
    let dl := (req.deadline).getD (now + ttl)
    match sortPairs (req.headers.zip req.sealFlag) with
    | .error e => .error e
    | .ok sorted =>
      let allHeaders := sorted.filterMap (fun p => p.1)
      let lres := processHeadersLoop needed verify req.id dl allHeaders sorted st []
      if lres.2.2 then .ok lres.1
      else
        match sumHeadersRequestsInRange req.id (allHeaders.headD dummyHeader).number lres.2.1 with
        | .error _ => .ok lres.1
        | .ok r => .ok { lres.1 with headersRequests := lres.1.headersRequests ++ [r] }

/-! Concrete data used to instantiate the theorems below.  The headers form a
small parent chain: `cexH9 <- cexH10 <- cexH11 <- cexH12` (each header's
`parentHash` is its parent's `hash`). -/

/-- Block 9 of the concrete chain. -/
def cexH9 : Header := ⟨9, 90, 100⟩

/-- Block 10 of the concrete chain. -/
def cexH10 : Header := ⟨10, 100, 110⟩

/-- Block 11 of the concrete chain. -/
def cexH11 : Header := ⟨11, 110, 111⟩

/-- Block 12 of the concrete chain. -/
def cexH12 : Header := ⟨12, 111, 112⟩

/-- A batch-first header whose number sits 10 below the top of the `uint64`
range, so that adding an ancestor need of 100 to it wraps. -/
def c3WrapFirst : Header := ⟨U - 10, 500, 600⟩

/-- A header five below the top of the `uint64` range, inside the batch
`[c3WrapFirst, c3WrapHdr]`. -/
def c3WrapHdr : Header := ⟨U - 5, 501, 601⟩

/-- The empty pipeline state. -/
def cexSt0 : State := ⟨[], [], [], []⟩

/-- A rule engine that accepts every header. -/
def cexVerifyOK : Header → List Header → Bool → Bool → Option Err := fun _ _ _ _ => none

/-- A rule engine that rejects every header. -/
def cexVerifyReject : Header → List Header → Bool → Bool → Option Err :=
  fun _ _ _ _ => some (Err.rule 7)

/-- Projection of a batch-processing outcome onto the emitted
`HeadersRequest`s (empty on panic). -/
def batchRequests (r : Except Unit State) : List HeadersRequest :=
  match r with
  | .ok s => s.headersRequests
  | .error _ => []

/-- Projection of a batch-processing outcome onto the resulting state (the
empty state on panic). -/
def batchState (r : Except Unit State) : State :=
  match r with
  | .ok s => s
  | .error _ => cexSt0

/-- Whether a batch-processing outcome is the Go runtime panic. -/
def isPanic (r : Except Unit State) : Bool :=
  match r with
  | .ok _ => false
  | .error _ => true

/-- State after submitting the valid batch `{id 1, [cexH10, cexH11]}` with a
rule engine needing 2 ancestors per header, on an empty cache: both headers
become pending, no response has been emitted yet. -/
def c1St1 : State :=
  batchState (processHeaderBatch (fun _ => 2) cexVerifyOK 0 cexSt0
    ⟨1, [some cexH10, some cexH11], [false, false], some 100⟩)

/-- State after the ancestor fetch for request id 1 then fails (the
`HeaderResponses` arm with a non-nil error). -/
def c1St2 : State := processHeaderResponse cexVerifyOK c1St1 ⟨1, [], 77, some (Err.fetch 0)⟩

/-- Rule engine for the claim-4 scenario: `cexH11` needs 1 ancestor, `cexH12`
needs 3. -/
def c4Needed : Header → Nat := fun h => if h.number = 11 then 1 else if h.number = 12 then 3 else 2

/-- Outcome of the claim-4 batch `{id 1, [cexH10, cexH11, cexH12]}` on a cache
already holding `cexH10`. -/
def c4Result : Except Unit State :=
  processHeaderBatch c4Needed cexVerifyOK 0 ⟨[cexH10], [], [], []⟩
    ⟨1, [some cexH10, some cexH11, some cexH12], [false, false, false], some 100⟩

/-- Outcome of the claim-5 batch `{id 1, [cexH10, cexH11]}` with a rule engine
needing 1 ancestor per header, on a cache already holding `cexH9`: every
header resolves without any external fetch need. -/
def c5Result : Except Unit State :=
  processHeaderBatch (fun _ => 1) cexVerifyOK 0 ⟨[cexH9], [], [], []⟩
    ⟨1, [some cexH10, some cexH11], [false, false], some 100⟩

/-- An ancestor of block 12 at height 10. -/
def c7P : Header := ⟨10, 91, 210⟩

/-- A competing (forked) header, also at height 10, with a different hash. -/
def c7Q : Header := ⟨10, 92, 211⟩

/-- A pending entry for block 12 that already knows `c7P` and expects 2
parents; its fold window is `[10, 10]`. -/
def c7Entry : VerifyRequest := ⟨1, ⟨12, 210, 212⟩, false, 99, [c7P], 2, 10, 10⟩

/-- A dedup index in which request id 1 already has a map (created by an
earlier entry of the same request id in the same resolution pass), so the
index is not re-seeded from `c7Entry`'s own known parents. -/
def c7Kbr : KBR := fun i => if i = 1 then some (fun _ => none) else none

/-- A pending entry for block 10 needing zero parents: its verification is
attempted immediately during a resolution pass. -/
def c9Entry : VerifyRequest := ⟨1, cexH10, false, 99, [], 0, usub 10 0, usub (usub 10 0) 1⟩

/-- The inner registry entry holding `c9Entry` under block number 10. -/
def c9Blocks : List (Nat × VerifyRequest) := [(10, c9Entry)]

/-- A state whose registry holds exactly `c9Entry` under request id 1. -/
def c9St : State := ⟨[], [(1, c9Blocks)], [], []⟩

/-- A pending entry of request id 1 whose deadline (5) is expired at time 10. -/
def c6Expired : VerifyRequest := ⟨1, cexH10, false, 5, [], 2, 8, 9⟩

/-- A pending entry of request id 1 whose deadline (50) is still live at
time 10. -/
def c6Live : VerifyRequest := ⟨1, cexH11, false, 50, [cexH10], 2, 9, 9⟩

/-- The inner registry entries of request id 1 for the sweep scenarios:
block 10 expired, block 11 live. -/
def c6Blocks : List (Nat × VerifyRequest) := [(10, c6Expired), (11, c6Live)]

/-- A registry with request id 1 (one expired entry, one live entry) and
request id 2 (live only). -/
def c6Reg : List (Nat × List (Nat × VerifyRequest)) := [(1, c6Blocks), (2, [(12, c6Live)])]

/-! ### Helper lemmas -/

theorem lookup_eraseKey {α : Type} (l : List (Nat × α)) (k : Nat) :
    List.lookup k (eraseKey l k) = none := by
  rw [List.lookup_eq_none_iff]
  intro p hp
  unfold eraseKey at hp
  have hpk := List.of_mem_filter hp
  simp only [bne_iff_ne] at hpk ⊢
  exact fun he => hpk he.symm

theorem mem_of_lookup {α : Type} {l : List (Nat × α)} {k : Nat} {v : α}
    (h : List.lookup k l = some v) : (k, v) ∈ l := by
  rcases List.lookup_eq_some_iff.1 h with ⟨l₁, l₂, rfl, -⟩
  simp

theorem eq_of_mem_of_lookup {α : Type} {l : List (Nat × α)} {k : Nat} {v : α} {q : Nat × α}
    (hnd : (l.map Prod.fst).Nodup) (hb : List.lookup k l = some v)
    (hq : q ∈ l) (hk : q.1 = k) : q = (k, v) := by
  rcases List.lookup_eq_some_iff.1 hb with ⟨l₁, l₂, rfl, h₁⟩
  rw [List.mem_append, List.mem_cons] at hq
  rcases hq with h | h | h
  · have := h₁ q h
    rw [bne_iff_ne] at this
    exact absurd hk.symm this
  · exact h
  · exfalso
    rw [List.map_append, List.map_cons] at hnd
    have h2 := hnd.of_append_right
    rw [List.nodup_cons] at h2
    exact h2.1 (List.mem_map.2 ⟨q, h, hk⟩)

theorem lookup_filter_none {α : Type} {l : List (Nat × α)} {k : Nat} {v : α}
    (P : Nat × α → Bool)
    (hnd : (l.map Prod.fst).Nodup)
    (hb : List.lookup k l = some v)
    (hP : P (k, v) = false) :
    List.lookup k (l.filter P) = none := by
  rw [List.lookup_eq_none_iff]
  intro q hq
  rw [bne_iff_ne]
  intro hkq
  have hq' : q ∈ l := List.mem_of_mem_filter hq
  have hqe : q = (k, v) := eq_of_mem_of_lookup hnd hb hq' hkq.symm
  subst hqe
  have := List.of_mem_filter hq
  simp [hP] at this

/-! ### Structural facts about `appendAncestors` -/

theorem appendAncestors_id (request : VerifyRequest) (ancestors : List Header) (kbr : KBR) :
    (appendAncestors request ancestors kbr).1.id = request.id := rfl

theorem appendAncestors_header (request : VerifyRequest) (ancestors : List Header) (kbr : KBR) :
    (appendAncestors request ancestors kbr).1.header = request.header := rfl

theorem appendAncestors_parentsExpected (request : VerifyRequest) (ancestors : List Header)
    (kbr : KBR) :
    (appendAncestors request ancestors kbr).1.parentsExpected = request.parentsExpected := rfl

/-! ### Claim theorems -/

/-- C2: the spec demands that a batch containing a nil header slot yields
exactly one "empty header" error result and otherwise proceeds normally, but
the code sorts the copied header slice *before* its nil check, and the sort
comparator dereferences every header of a multi-header slice: a batch of two
headers one of which is nil panics inside `sort.Slice` before any result is
emitted.  The model evaluates the failing input to the panic outcome. -/
theorem claim2_nil_header_in_multiheader_batch_panics :
    isPanic (processHeaderBatch c4Needed cexVerifyOK 0 cexSt0
      ⟨1, [some cexH10, none], [false, false], some 5⟩) = true := by
  decide

/-- C4: evaluating the claim-4 scenario end to end.  The batch spans
`[10, 12]` with `cexH10` already cached; the accumulated per-header requests
are `{highest 11, count 0}` (for `cexH11`, fully satisfiable in-batch) and
`{highest 9, hash 100, count 1}` (for `cexH12`).  The claim requires the
merged request to take the highest number strictly below 10 among non-zero
requests, i.e. `{hash 100, highest 9, count 1}`; the code instead seeds the
merge from the first request unconditionally and emits
`{hash 110, highest 11, count 3}` — highest not below the batch's lowest
header number, count 3 instead of 1. -/
theorem claim4_merge_seeded_from_zero_count_request :
    batchRequests c4Result = [⟨1, 110, 11, 3⟩] ∧
    (⟨1, 100, 9, 1⟩ : HeadersRequest) ∉ batchRequests c4Result := by
  decide

/-- C5 counterexample: a batch in which *every* per-header fetch count is
zero (each header's ancestors are in the cache or in the batch) still emits
an `AncestorFetchRequest` — with count 0 — because `sumHeadersRequestsInRange`
only reports "nothing to ask" when the request list is empty.  The first two
conjuncts evaluate the two per-header requests, showing both have count 0;
the third shows a zero-count fetch request is nevertheless emitted. -/
theorem claim5_counterexample :
    (requestParentHeaders (fun _ => 1) [cexH9] 1 cexH10 [cexH10, cexH11]).2.2 =
      some ⟨1, 100, 9, 0⟩ ∧
    (requestParentHeaders (fun _ => 1) [cexH10, cexH9] 1 cexH11 [cexH10, cexH11]).2.2 =
      some ⟨1, 110, 11, 0⟩ ∧
    batchRequests c5Result = [⟨1, 100, 9, 0⟩] := by
  decide

/-- C1 counterexample: after the valid (non-empty, nil-free) batch
`{id 1, [cexH10, cexH11]}` both headers are pending (no result emitted), and a
subsequent ancestor-fetch failure for request id 1 drops both registry entries
while emitting a single error response whose hash (77) is the fetch response's
hash — neither header's hash ever appears in a response, so headers *are*
removed from the pending registry without a result having been emitted for
them. -/
theorem claim1_counterexample :
    (List.lookup 1 c1St1.registry).isSome = true ∧
    (List.lookup 10 ((List.lookup 1 c1St1.registry).getD [])).isSome = true ∧
    (List.lookup 11 ((List.lookup 1 c1St1.registry).getD [])).isSome = true ∧
    c1St1.responses = [] ∧
    List.lookup 1 c1St2.registry = none ∧
    c1St2.responses = [⟨1, 77, some (Err.fetch 0)⟩] := by
  decide

/-- C7 counterexample: folding into `c7Entry` (which already knows `c7P`)
during a pass in which another entry of the same request id was processed
first (so the dedup index was not seeded from `c7Entry`'s known parents)
appends `c7P` a second time, and the competing same-height header `c7Q` also
lands, leaving known-parents `[c7P, c7P, c7Q]`: a duplicated ancestor and a
known-parents count of 3 exceeding parents-expected 2. -/
theorem claim7_counterexample :
    ((appendAncestors c7Entry [c7P, c7Q] c7Kbr).1.knownParents.map Header.hash =
      [210, 210, 211]) ∧
    ¬ ((appendAncestors c7Entry [c7P, c7Q] c7Kbr).1.knownParents.map Header.hash).Nodup ∧
    c7Entry.parentsExpected <
      (appendAncestors c7Entry [c7P, c7Q] c7Kbr).1.knownParents.length := by
  decide

/-- C8 counterexample: a successful `AncestorFetchResult` (no error, one
header) for a request id with no pending entries is ignored wholesale — in
particular the returned header is *not* added to the cache, contradicting the
claim's unconditional "all returned headers are added to the Cache". -/
theorem claim8_counterexample :
    verifyRequestsCommonAncestor cexVerifyOK cexSt0 5 [cexH9] = cexSt0 ∧
    GetCachedHeader (verifyRequestsCommonAncestor cexVerifyOK cexSt0 5 [cexH9]).cache
      cexH9.hash cexH9.number = none := by
  decide

/-- C1 (amended): an ancestor-fetch failure emits exactly one error response —
carrying the request id and the fetch response's hash, not one response per
pending header — and removes every pending entry of that request id from the
registry; pending headers can therefore leave the registry without a
per-header result. -/
theorem claim1_fetch_failure_one_response_drops_id
    (verify : Header → List Header → Bool → Bool → Option Err)
    (st : State) (r : HeaderResponseMsg) (e : Err)
    (h : r.err = some e) :
    (processHeaderResponse verify st r).responses = st.responses ++ [⟨r.id, r.hash, some e⟩] ∧
    List.lookup r.id (processHeaderResponse verify st r).registry = none := by
  unfold processHeaderResponse
  rw [h]
  exact ⟨rfl, lookup_eraseKey st.registry r.id⟩

/-- Witness for C1 (amended), instantiated at the concrete failed fetch of
`c1St2`. -/
theorem claim1_fetch_failure_one_response_drops_id_witness :
    (⟨1, [], 77, some (Err.fetch 0)⟩ : HeaderResponseMsg).err = some (Err.fetch 0) ∧
    (c1St2.responses = c1St1.responses ++ [⟨1, 77, some (Err.fetch 0)⟩] ∧
     List.lookup 1 c1St2.registry = none) :=
  ⟨rfl, claim1_fetch_failure_one_response_drops_id cexVerifyOK c1St1
    ⟨1, [], 77, some (Err.fetch 0)⟩ (Err.fetch 0) rfl⟩

/-- C9: during a resolution pass, an entry whose verification is attempted
(its known-parents count after folding equals parents-expected) has its header
appended to the ancestor pool used for later entries of the pass — for *every*
rule engine `verify`, i.e. regardless of whether the header was accepted or
rejected. -/
theorem claim9_attempted_entry_joins_ancestor_pool
    (verify : Header → List Header → Bool → Bool → Option Err)
    (reqID num : Nat) (st : State) (pool : List Header) (kbr : KBR)
    (blocks : List (Nat × VerifyRequest)) (req : VerifyRequest)
    (hb : List.lookup reqID st.registry = some blocks)
    (hr : List.lookup num blocks = some req)
    (hatt : ((appendAncestors req pool kbr).1.knownParents).length = req.parentsExpected) :
    (passStep verify reqID (st, pool, kbr) num).2.1 = pool ++ [req.header] := by
  unfold passStep
  simp only [hb, hr]
  unfold verifyByRequest
  have hcond : ¬ ((appendAncestors req pool kbr).1.knownParents.length ≠
      (appendAncestors req pool kbr).1.parentsExpected) := by
    rw [appendAncestors_parentsExpected]
    simpa using hatt
  rw [if_neg hcond]
  simp [appendAncestors_header]

/-- Witness for C9: a ready entry (zero parents expected) is appended to the
pool even under the always-rejecting rule engine. -/
theorem claim9_attempted_entry_joins_ancestor_pool_witness :
    List.lookup 1 c9St.registry = some c9Blocks ∧
    List.lookup 10 c9Blocks = some c9Entry ∧
    ((appendAncestors c9Entry [] (fun _ => none)).1.knownParents).length =
      c9Entry.parentsExpected ∧
    (passStep cexVerifyReject 1 (c9St, [], fun _ => none) 10).2.1 = [] ++ [c9Entry.header] :=
  ⟨by decide, by decide, by decide,
   claim9_attempted_entry_joins_ancestor_pool cexVerifyReject 1 10 c9St [] (fun _ => none)
     c9Blocks c9Entry (by decide) (by decide) (by decide)⟩

/-- C6: a pending entry whose deadline has passed when the sweep runs is
resolved with a timeout response, its entire request id is dropped from the
registry, and afterwards no `AncestorFetchResult` for that request id changes
the state (in particular nothing for that id can resolve a second time). -/
theorem claim6_expired_entry_timeout_and_id_dropped
    (reg : Registry) (now reqID bn : Nat)
    (blocks : List (Nat × VerifyRequest)) (e : VerifyRequest)
    (hnd : (reg.map Prod.fst).Nodup)
    (hb : List.lookup reqID reg = some blocks)
    (he : List.lookup bn blocks = some e)
    (hd : e.deadline < now) :
    (⟨reqID, e.header.hash, some Err.timeout⟩ : VerifyHeaderResponse) ∈ (cleanupSweep now reg).1 ∧
    List.lookup reqID (cleanupSweep now reg).2 = none ∧
    ∀ verify st headers, st.registry = (cleanupSweep now reg).2 →
      verifyRequestsCommonAncestor verify st reqID headers = st := by
  have hany : blocks.any (fun b => decide (b.2.deadline < now)) = true :=
    List.any_eq_true.2 ⟨(bn, e), mem_of_lookup he, by simpa using hd⟩
  have h2 : List.lookup reqID (cleanupSweep now reg).2 = none := by
    unfold cleanupSweep
    apply lookup_filter_none _ hnd hb
    simp [hany]
  refine ⟨?_, h2, ?_⟩
  · unfold cleanupSweep
    apply List.mem_flatMap.2
    refine ⟨(reqID, blocks), mem_of_lookup hb, ?_⟩
    apply List.mem_map.2
    refine ⟨(bn, e), ?_, rfl⟩
    exact List.mem_filter.2 ⟨mem_of_lookup he, by simpa using hd⟩
  · intro verify st headers hst
    unfold verifyRequestsCommonAncestor
    by_cases hh : headers.length = 0
    · simp [hh]
    · rw [if_neg hh, hst, h2]

/-- Witness for C6 at a concrete registry: id 1 holds the expired `c6Expired`
(deadline 5) and the live `c6Live` (deadline 50); the sweep at time 10 emits
the timeout for `c6Expired` and drops id 1 entirely. -/
theorem claim6_expired_entry_timeout_and_id_dropped_witness :
    (c6Reg.map Prod.fst).Nodup ∧
    List.lookup 1 c6Reg = some c6Blocks ∧
    List.lookup 10 c6Blocks = some c6Expired ∧
    c6Expired.deadline < 10 ∧
    ((⟨1, c6Expired.header.hash, some Err.timeout⟩ : VerifyHeaderResponse) ∈
       (cleanupSweep 10 c6Reg).1 ∧
     List.lookup 1 (cleanupSweep 10 c6Reg).2 = none ∧
     ∀ verify st headers,
       st.registry = (cleanupSweep 10 c6Reg).2 →
       verifyRequestsCommonAncestor verify st 1 headers = st) :=
  ⟨by decide, by decide, by decide, by decide,
   claim6_expired_entry_timeout_and_id_dropped c6Reg 10 1 10 c6Blocks c6Expired
     (by decide) (by decide) (by decide) (by decide)⟩

theorem cleanup_filter_id_of_not_mem (now k : Nat)
    (rest : List (Nat × List (Nat × VerifyRequest)))
    (hk : k ∉ rest.map Prod.fst) :
    (rest.flatMap (fun idb =>
       (idb.2.filter (fun b => decide (b.2.deadline < now))).map
         (fun b => (⟨idb.1, b.2.header.hash, some Err.timeout⟩ : VerifyHeaderResponse)))).filter
      (fun r => r.id == k) = [] := by
  rw [List.filter_eq_nil_iff]
  intro r hr
  rw [List.mem_flatMap] at hr
  obtain ⟨idb, hidb, hrm⟩ := hr
  rw [List.mem_map] at hrm
  obtain ⟨b, -, rfl⟩ := hrm
  simp only [beq_iff_eq]
  intro he
  exact hk (by rw [← he]; exact List.mem_map.2 ⟨idb, hidb, rfl⟩)

theorem cleanup_responses_filter (now k : Nat) :
    ∀ (reg : List (Nat × List (Nat × VerifyRequest))) (blocks : List (Nat × VerifyRequest)),
      (reg.map Prod.fst).Nodup →
      List.lookup k reg = some blocks →
      (cleanupSweep now reg).1.filter (fun r => r.id == k) =
        (blocks.filter (fun b => decide (b.2.deadline < now))).map
          (fun b => ⟨k, b.2.header.hash, some Err.timeout⟩) := by
  intro reg
  induction reg with
  | nil => intro blocks _ hb; simp at hb
  | cons p rest ih =>
    obtain ⟨pk, pv⟩ := p
    intro blocks hnd hb
    rw [List.map_cons, List.nodup_cons] at hnd
    unfold cleanupSweep
    rw [List.flatMap_cons, List.filter_append]
    cases he : (k == pk) with
    | true =>
      have hk : k = pk := by simpa [beq_iff_eq] using he
      simp only [List.lookup_cons, he] at hb
      have hbp : blocks = pv := by simp_all
      subst hbp hk
      have htail :
          ((rest.flatMap (fun idb =>
             (idb.2.filter (fun b => decide (b.2.deadline < now))).map
               (fun b => (⟨idb.1, b.2.header.hash, some Err.timeout⟩ : VerifyHeaderResponse)))).filter
            (fun r => r.id == k)) = [] :=
        cleanup_filter_id_of_not_mem now k rest hnd.1
      have hhead :
          ((blocks.filter (fun b => decide (b.2.deadline < now))).map
             (fun b => (⟨k, b.2.header.hash, some Err.timeout⟩ : VerifyHeaderResponse))).filter
            (fun r => r.id == k) =
          (blocks.filter (fun b => decide (b.2.deadline < now))).map
             (fun b => (⟨k, b.2.header.hash, some Err.timeout⟩ : VerifyHeaderResponse)) := by
        rw [List.filter_eq_self]
        intro a ha
        rw [List.mem_map] at ha
        obtain ⟨b, -, rfl⟩ := ha
        simp
      rw [hhead, htail, List.append_nil]
    | false =>
      have hkne : k ≠ pk := by simpa [beq_iff_eq] using he
      simp only [List.lookup_cons, he] at hb
      have hhead :
          ((pv.filter (fun b => decide (b.2.deadline < now))).map
             (fun b => (⟨pk, b.2.header.hash, some Err.timeout⟩ : VerifyHeaderResponse))).filter
            (fun r => r.id == k) = [] := by
        rw [List.filter_eq_nil_iff]
        intro a ha
        rw [List.mem_map] at ha
        obtain ⟨b, -, rfl⟩ := ha
        simpa [beq_iff_eq] using hkne.symm
      rw [hhead]
      have := ih blocks hnd.2 hb
      unfold cleanupSweep at this
      rw [this, List.nil_append]

/-- C10: when the sweep finds at least one expired entry of a request id, the
responses it emits for that request id are exactly one timeout per *expired*
entry of the id (and nothing for the live ones), while the whole request id —
live entries included — is removed from the registry, so the live entries are
dropped without any response ever emitted for them by the sweep. -/
theorem claim10_sweep_emits_only_for_expired_entries
    (reg : List (Nat × List (Nat × VerifyRequest))) (now reqID : Nat)
    (blocks : List (Nat × VerifyRequest))
    (hnd : (reg.map Prod.fst).Nodup)
    (hb : List.lookup reqID reg = some blocks)
    (hexp : blocks.any (fun b => decide (b.2.deadline < now)) = true) :
    (cleanupSweep now reg).1.filter (fun r => r.id == reqID) =
      (blocks.filter (fun b => decide (b.2.deadline < now))).map
        (fun b => ⟨reqID, b.2.header.hash, some Err.timeout⟩) ∧
    List.lookup reqID (cleanupSweep now reg).2 = none := by
  refine ⟨cleanup_responses_filter now reqID reg blocks hnd hb, ?_⟩
  unfold cleanupSweep
  apply lookup_filter_none _ hnd hb
  simp [hexp]

/-- Witness for C10 at the concrete registry `c6Reg`: the sweep at time 10
emits exactly the timeout for the expired block-10 entry of request id 1, and
the live block-11 entry disappears with it. -/
theorem claim10_sweep_emits_only_for_expired_entries_witness :
    (c6Reg.map Prod.fst).Nodup ∧
    List.lookup 1 c6Reg = some c6Blocks ∧
    c6Blocks.any (fun b => decide (b.2.deadline < 10)) = true ∧
    ((cleanupSweep 10 c6Reg).1.filter (fun r => r.id == 1) =
      (c6Blocks.filter (fun b => decide (b.2.deadline < 10))).map
        (fun b => ⟨1, b.2.header.hash, some Err.timeout⟩) ∧
     List.lookup 1 (cleanupSweep 10 c6Reg).2 = none) :=
  ⟨by decide, by decide, by decide,
   claim10_sweep_emits_only_for_expired_entries c6Reg 10 1 c6Blocks
     (by decide) (by decide) (by decide)⟩

theorem initAMap_apply (bn : Nat) :
    ∀ (ps : List Header) (m : AMap) (h : Nat),
      initAMap bn ps m h = if h ∈ ps.map Header.hash then some [bn] else m h := by
  intro ps
  induction ps with
  | nil => intro m h; simp [initAMap]
  | cons p rest ih =>
    intro m h
    rw [initAMap, ih]
    by_cases hh : h ∈ rest.map Header.hash
    · simp [hh]
    · by_cases hp : h = p.hash
      · simp [hh, hp, insertA]
      · simp [hh, hp, insertA]

theorem foldAncestors_nodup (bn fromW toW : Nat) :
    ∀ (anc known : List Header) (m : AMap),
      (∀ hsh, (∃ l, m hsh = some l ∧ bn ∈ l) ↔ hsh ∈ known.map Header.hash) →
      (known.map Header.hash).Nodup →
      ((foldAncestors bn fromW toW anc (known, m)).1.map Header.hash).Nodup := by
  intro anc
  induction anc with
  | nil => intro known m _ hnd; simpa [foldAncestors] using hnd
  | cons p rest ih =>
    intro known m hinv hnd
    simp only [foldAncestors]
    by_cases hw : fromW ≤ p.number ∧ p.number ≤ toW
    · rw [if_pos hw]
      cases hm : m p.hash with
      | none =>
        have hnotin : p.hash ∉ known.map Header.hash := by
          intro hmem
          rcases (hinv p.hash).2 hmem with ⟨l, hl, -⟩
          rw [hm] at hl
          exact Option.noConfusion hl
        apply ih (known ++ [p]) (insertA m p.hash [bn])
        · intro hsh
          by_cases hp : hsh = p.hash
          · subst hp
            simp [insertA]
          · constructor
            · intro hex
              rw [show insertA m p.hash [bn] hsh = m hsh by simp [insertA, hp]] at hex
              have := (hinv hsh).1 hex
              simp [this]
            · intro hmem
              rw [List.map_append, List.mem_append] at hmem
              rcases hmem with h | h
              · rw [show insertA m p.hash [bn] hsh = m hsh by simp [insertA, hp]]
                exact (hinv hsh).2 h
              · simp at h
                exact absurd h hp
        · rw [List.map_append]
          simp [List.nodup_append, hnd, hnotin]
      | some pm =>
        dsimp only
        by_cases hbn : bn ∈ pm
        · rw [if_pos hbn]
          exact ih known m hinv hnd
        · rw [if_neg hbn]
          have hnotin : p.hash ∉ known.map Header.hash := by
            intro hmem
            rcases (hinv p.hash).2 hmem with ⟨l, hl, hbl⟩
            rw [hm] at hl
            cases hl
            exact hbn hbl
          apply ih (known ++ [p]) (insertA m p.hash [bn])
          · intro hsh
            by_cases hp : hsh = p.hash
            · subst hp
              simp [insertA]
            · constructor
              · intro hex
                rw [show insertA m p.hash [bn] hsh = m hsh by simp [insertA, hp]] at hex
                have := (hinv hsh).1 hex
                simp [this]
              · intro hmem
                rw [List.map_append, List.mem_append] at hmem
                rcases hmem with h | h
                · rw [show insertA m p.hash [bn] hsh = m hsh by simp [insertA, hp]]
                  exact (hinv hsh).2 h
                · simp at h
                  exact absurd h hp
          · rw [List.map_append]
            simp [List.nodup_append, hnd, hnotin]
    · rw [if_neg hw]
      exact ih known m hinv hnd

/-- C7 (amended): when the dedup index holds no prior state for the entry's
request id — i.e. the entry is the first of its request id processed in the
pass, so the index is seeded from the entry's own known parents — folding
never appends an ancestor hash that is already present: the hashes of
known-parents stay pairwise distinct.  (The counterexample shows both claim
conjuncts fail without this precondition: a later entry of the same request id
can receive a duplicate, and distinct forked headers at one height can push
the count past parents-expected.) -/
theorem claim7_first_entry_fold_keeps_hashes_nodup
    (request : VerifyRequest) (ancestors : List Header) (kbr : KBR)
    (h0 : kbr request.id = none)
    (hnd : (request.knownParents.map Header.hash).Nodup) :
    ((appendAncestors request ancestors kbr).1.knownParents.map Header.hash).Nodup := by
  unfold appendAncestors
  simp only [h0]
  apply foldAncestors_nodup
  · intro hsh
    rw [initAMap_apply]
    by_cases hm : hsh ∈ request.knownParents.map Header.hash
    · simp [hm]
    · simp [hm]
  · exact hnd

/-- Witness for C7 (amended): the counterexample's entry and delivery, but
with an unseeded dedup index — the duplicate no longer occurs. -/
theorem claim7_first_entry_fold_keeps_hashes_nodup_witness :
    (fun _ => (none : Option AMap)) c7Entry.id = none ∧
    (c7Entry.knownParents.map Header.hash).Nodup ∧
    ((appendAncestors c7Entry [c7P, c7Q] (fun _ => none)).1.knownParents.map
       Header.hash).Nodup :=
  ⟨rfl, by decide,
   claim7_first_entry_fold_keeps_hashes_nodup c7Entry [c7P, c7Q] (fun _ => none) rfl
     (by decide)⟩

theorem mem_insertByNum {α : Type} (key : α → Nat) (a x : α) :
    ∀ l, x ∈ insertByNum key a l ↔ x = a ∨ x ∈ l := by
  intro l
  induction l with
  | nil => simp [insertByNum]
  | cons b rest ih =>
    unfold insertByNum
    by_cases hlt : key a < key b
    · rw [if_pos hlt]
      simp
    · rw [if_neg hlt]
      rw [List.mem_cons, ih, List.mem_cons]
      tauto

theorem mem_sortByNum {α : Type} (key : α → Nat) (x : α) :
    ∀ l, x ∈ sortByNum key l ↔ x ∈ l := by
  intro l
  induction l with
  | nil => simp [sortByNum]
  | cons b rest ih =>
    unfold sortByNum at ih ⊢
    rw [List.foldr_cons, mem_insertByNum, ih, List.mem_cons]

theorem getCached_isSome_cons (cache : List Header) (hd : Header) (x n : Nat)
    (h : (GetCachedHeader cache x n).isSome = true) :
    (GetCachedHeader (CacheHeader cache hd) x n).isSome = true := by
  unfold GetCachedHeader CacheHeader at *
  rw [List.find?_cons]
  cases hpred : (hd.hash == x && hd.number == n) with
  | true => simp [hpred]
  | false =>
    simp only [hpred]
    exact h

theorem getCached_isSome_verifyByRequest
    (verify : Header → List Header → Bool → Bool → Option Err)
    (st : State) (reqID : Nat) (header : Header) (sealFlag : Bool)
    (parentsExpected : Nat) (knownParents : List Header) (x n : Nat)
    (h : (GetCachedHeader st.cache x n).isSome = true) :
    (GetCachedHeader
      (verifyByRequest verify st reqID header sealFlag parentsExpected knownParents).2.cache
      x n).isSome = true := by
  unfold verifyByRequest
  by_cases hlen : knownParents.length ≠ parentsExpected
  · rw [if_pos hlen]
    exact h
  · rw [if_neg hlen]
    cases verify header knownParents false sealFlag with
    | none => exact getCached_isSome_cons st.cache header x n h
    | some e => exact h

theorem allPairs_cached_mono (needed : Header → Nat)
    (pairs : List (Option Header × Bool)) (c1 c2 : List Header)
    (hmono : ∀ x n, (GetCachedHeader c1 x n).isSome = true →
      (GetCachedHeader c2 x n).isSome = true)
    (hall : pairs.all (fun p => match p.1 with
      | some h => (GetCachedHeader c1 h.hash h.number).isSome || (needed h == 0)
      | none => false) = true) :
    pairs.all (fun p => match p.1 with
      | some h => (GetCachedHeader c2 h.hash h.number).isSome || (needed h == 0)
      | none => false) = true := by
  rw [List.all_eq_true] at hall ⊢
  intro p hp
  have hthis := hall p hp
  cases hp1 : p.1 with
  | none => simp [hp1] at hthis
  | some h =>
    rw [hp1] at hthis
    dsimp only at hthis
    rw [Bool.or_eq_true] at hthis ⊢
    rcases hthis with hhit | hzero
    · exact Or.inl (hmono h.hash h.number hhit)
    · exact Or.inr hzero

theorem processHeadersLoop_no_request (needed : Header → Nat)
    (verify : Header → List Header → Bool → Bool → Option Err)
    (reqID dl : Nat) (allHeaders : List Header) :
    ∀ (pairs : List (Option Header × Bool)) (st : State) (reqs : List HeadersRequest),
      pairs.all (fun p => match p.1 with
        | some h => (GetCachedHeader st.cache h.hash h.number).isSome || (needed h == 0)
        | none => false) = true →
      (processHeadersLoop needed verify reqID dl allHeaders pairs st reqs).2.1 = reqs ∧
      (processHeadersLoop needed verify reqID dl allHeaders pairs st reqs).2.2 = false ∧
      (processHeadersLoop needed verify reqID dl allHeaders pairs st reqs).1.headersRequests =
        st.headersRequests := by
  intro pairs
  induction pairs with
  | nil => intro st reqs _; exact ⟨rfl, rfl, rfl⟩
  | cons p rest ih =>
    intro st reqs hall
    obtain ⟨oh, sflag⟩ := p
    rw [List.all_cons, Bool.and_eq_true] at hall
    cases oh with
    | none => simp at hall
    | some h =>
      simp only [processHeadersLoop]
      cases hv : GetCachedHeader st.cache h.hash h.number with
      | some v =>
        exact ih { st with responses := st.responses ++ [⟨reqID, h.hash, none⟩] } reqs hall.2
      | none =>
        have hk0 : needed h = 0 := by
          have hthis := hall.1
          dsimp only at hthis
          rw [hv] at hthis
          simpa using hthis
        have hrp : requestParentHeaders needed st.cache reqID h allHeaders = ([], 0, none) := by
          unfold requestParentHeaders
          rw [if_pos hk0]
        rw [hrp]
        dsimp only [Option.toList]
        have hvbr1 : (verifyByRequest verify st reqID h sflag 0 []).1 = true := by
          unfold verifyByRequest
          rw [if_neg (by simp)]
        rw [if_pos hvbr1]
        have hmono := fun x n =>
          getCached_isSome_verifyByRequest verify st reqID h sflag 0 [] x n
        obtain ⟨h1, h2, h3⟩ := ih (verifyByRequest verify st reqID h sflag 0 []).2
          (reqs ++ []) (allPairs_cached_mono needed rest st.cache _ hmono hall.2)
        refine ⟨by rw [h1]; simp, h2, ?_⟩
        rw [h3]
        unfold verifyByRequest
        rw [if_neg (by simp)]

/-- C5 (amended): a batch in which *no* header accumulates any fetch request
at all — every header short-circuits on the cache or needs zero ancestors —
emits no `AncestorFetchRequest`: the merge step receives an empty request
list, reports `errNothingToAsk`, and the condition is logged rather than
treated as fatal.  (The counterexample shows why the claim's broader "every
per-header fetch count is zero" hypothesis fails: a header pending on
in-batch or cached ancestors still accumulates a count-0 request, and the
batch then emits one merged request with count 0.) -/
theorem claim5_no_accumulated_request_emits_nothing (needed : Header → Nat)
    (verify : Header → List Header → Bool → Bool → Option Err)
    (now : Nat) (st : State) (req : VerifyHeaderRequestMsg)
    (hlen : req.headers.length ≠ 0)
    (hall : (req.headers.zip req.sealFlag).all (fun p => match p.1 with
      | some h => (GetCachedHeader st.cache h.hash h.number).isSome || (needed h == 0)
      | none => false) = true) :
    ∃ st', processHeaderBatch needed verify now st req = .ok st' ∧
      st'.headersRequests = st.headersRequests := by
  have hsome : ∀ p ∈ req.headers.zip req.sealFlag, ∃ h, p.1 = some h := by
    intro p hp
    have hthis := (List.all_eq_true.1 hall) p hp
    cases hph : p.1 with
    | none => rw [hph] at hthis; simp at hthis
    | some h => exact ⟨h, rfl⟩
  have hnone : ¬ ((req.headers.zip req.sealFlag).any (fun p => p.1.isNone) = true) := by
    rw [List.any_eq_true]
    rintro ⟨p, hp, hisnone⟩
    obtain ⟨h, hph⟩ := hsome p hp
    rw [hph] at hisnone
    simp at hisnone
  unfold processHeaderBatch
  rw [if_neg hlen]
  unfold sortPairs
  rw [if_neg (by intro hc; exact hnone hc.2)]
  have hallSorted : (sortByNum (fun p => (p.1.getD dummyHeader).number)
      (req.headers.zip req.sealFlag)).all (fun p => match p.1 with
        | some h => (GetCachedHeader st.cache h.hash h.number).isSome || (needed h == 0)
        | none => false) = true := by
    rw [List.all_eq_true]
    intro p hp
    exact (List.all_eq_true.1 hall) p ((mem_sortByNum _ p _).1 hp)
  obtain ⟨h1, h2, h3⟩ := processHeadersLoop_no_request needed verify req.id
    ((req.deadline).getD (now + ttl))
    ((sortByNum (fun p => (p.1.getD dummyHeader).number) (req.headers.zip req.sealFlag)).filterMap
      (fun p => p.1))
    (sortByNum (fun p => (p.1.getD dummyHeader).number) (req.headers.zip req.sealFlag))
    st [] hallSorted
  dsimp only
  rw [h1, h2]
  dsimp only [sumHeadersRequestsInRange]
  exact ⟨_, rfl, h3⟩

/-- Witness for C5 (amended), exercising both disjuncts of the hypothesis:
`cexH10` is already cached and `cexH12` needs zero ancestors; the batch emits
no fetch request. -/
theorem claim5_no_accumulated_request_emits_nothing_witness :
    (([some cexH10, some cexH12].zip [false, false]).all (fun p => match p.1 with
      | some h => (GetCachedHeader [cexH10] h.hash h.number).isSome ||
          ((fun hh => if hh.number = 12 then 0 else 2) h == 0)
      | none => false) = true) ∧
    ∃ st', processHeaderBatch (fun hh => if hh.number = 12 then 0 else 2) cexVerifyOK 0
        ⟨[cexH10], [], [], []⟩
        ⟨1, [some cexH10, some cexH12], [false, false], some 9⟩ = .ok st' ∧
      st'.headersRequests = (⟨[cexH10], [], [], []⟩ : State).headersRequests :=
  ⟨by decide,
   claim5_no_accumulated_request_emits_nothing (fun hh => if hh.number = 12 then 0 else 2)
     cexVerifyOK 0 ⟨[cexH10], [], [], []⟩
     ⟨1, [some cexH10, some cexH12], [false, false], some 9⟩
     (by decide) (by decide)⟩

theorem mem_foldl_cacheHeader (x : Header) :
    ∀ (l acc : List Header), (x ∈ acc ∨ x ∈ l) → x ∈ l.foldl CacheHeader acc := by
  intro l
  induction l with
  | nil =>
    intro acc h
    rcases h with h | h
    · simpa using h
    · simp at h
  | cons hd tl ih =>
    intro acc h
    rw [List.foldl_cons]
    apply ih
    rcases h with h | h
    · exact Or.inl (by simp [CacheHeader, h])
    · rw [List.mem_cons] at h
      rcases h with rfl | h
      · exact Or.inl (by simp [CacheHeader])
      · exact Or.inr h

theorem cache_mono_verifyByRequest
    (verify : Header → List Header → Bool → Bool → Option Err)
    (st : State) (reqID : Nat) (header : Header) (sealFlag : Bool)
    (parentsExpected : Nat) (knownParents : List Header) (x : Header)
    (hx : x ∈ st.cache) :
    x ∈ (verifyByRequest verify st reqID header sealFlag parentsExpected knownParents).2.cache := by
  unfold verifyByRequest
  by_cases hlen : knownParents.length ≠ parentsExpected
  · rw [if_pos hlen]
    exact hx
  · rw [if_neg hlen]
    cases verify header knownParents false sealFlag with
    | none => simpa [CacheHeader] using Or.inr hx
    | some e => simpa using hx

theorem cache_mono_passStep (verify : Header → List Header → Bool → Bool → Option Err)
    (reqID : Nat) (acc : State × List Header × KBR) (num : Nat) (x : Header)
    (hx : x ∈ acc.1.cache) : x ∈ (passStep verify reqID acc num).1.cache := by
  unfold passStep
  dsimp only
  cases h1 : List.lookup reqID acc.1.registry with
  | none => exact hx
  | some blocks =>
    dsimp only
    cases h2 : List.lookup num blocks with
    | none => exact hx
    | some req =>
      dsimp only
      exact cache_mono_verifyByRequest verify _ _ _ _ _ _ x hx

theorem cache_mono_foldl_passStep (verify : Header → List Header → Bool → Bool → Option Err)
    (reqID : Nat) :
    ∀ (nums : List Nat) (acc : State × List Header × KBR) (x : Header),
      x ∈ acc.1.cache → x ∈ (nums.foldl (passStep verify reqID) acc).1.cache := by
  intro nums
  induction nums with
  | nil => intro acc x hx; simpa using hx
  | cons n rest ih =>
    intro acc x hx
    rw [List.foldl_cons]
    exact ih _ x (cache_mono_passStep verify reqID acc n x hx)

theorem sorted_insertByNum {α : Type} (key : α → Nat) (a : α) :
    ∀ l, List.Sorted (fun x y => key x ≤ key y) l →
      List.Sorted (fun x y => key x ≤ key y) (insertByNum key a l) := by
  intro l
  induction l with
  | nil => intro _; simp [insertByNum]
  | cons b rest ih =>
    intro hs
    rw [List.sorted_cons] at hs
    unfold insertByNum
    by_cases hlt : key a < key b
    · rw [if_pos hlt]
      rw [List.sorted_cons]
      constructor
      · intro x hx
        rw [List.mem_cons] at hx
        rcases hx with rfl | hx
        · exact Nat.le_of_lt hlt
        · exact Nat.le_trans (Nat.le_of_lt hlt) (hs.1 x hx)
      · rw [List.sorted_cons]
        exact hs
    · rw [if_neg hlt]
      rw [List.sorted_cons]
      constructor
      · intro x hx
        rw [mem_insertByNum] at hx
        rcases hx with rfl | hx
        · exact Nat.le_of_not_lt hlt
        · exact hs.1 x hx
      · exact ih hs.2

theorem sorted_sortByNum {α : Type} (key : α → Nat) (l : List α) :
    List.Sorted (fun x y => key x ≤ key y) (sortByNum key l) := by
  induction l with
  | nil => simp [sortByNum]
  | cons b rest ih =>
    unfold sortByNum at ih ⊢
    rw [List.foldr_cons]
    exact sorted_insertByNum key b _ ih

/-- C8 (amended): a successful ancestor delivery for a request id that still
has pending entries caches every delivered header, and the pass visits the
id's pending block numbers in ascending (sorted) order; a delivery for an
unknown request id is ignored entirely (nothing cached — see the
counterexample). -/
theorem claim8_pending_id_delivery_caches_all_ascending
    (verify : Header → List Header → Bool → Bool → Option Err)
    (st : State) (reqID : Nat) (headers : List Header)
    (blocks : List (Nat × VerifyRequest))
    (hb : List.lookup reqID st.registry = some blocks) :
    (∀ h ∈ headers, h ∈ (verifyRequestsCommonAncestor verify st reqID headers).cache) ∧
    List.Sorted (fun a b => a ≤ b)
      (sortByNum (fun n => n) (blocks.map (fun b => b.1))) := by
  constructor
  · intro h hh
    unfold verifyRequestsCommonAncestor
    have hlen : ¬ headers.length = 0 := by
      cases headers with
      | nil => simp at hh
      | cons a t => simp
    rw [if_neg hlen, hb]
    dsimp only
    apply cache_mono_foldl_passStep
    exact mem_foldl_cacheHeader h headers st.cache (Or.inr hh)
  · exact sorted_sortByNum (fun n => n) (blocks.map (fun b => b.1))

/-- Witness for C8 (amended): delivering `[cexH9]` for the pending request
id 1 of `c9St` caches it. -/
theorem claim8_pending_id_delivery_caches_all_ascending_witness :
    List.lookup 1 c9St.registry = some c9Blocks ∧
    ((∀ h ∈ [cexH9], h ∈ (verifyRequestsCommonAncestor cexVerifyOK c9St 1 [cexH9]).cache) ∧
     List.Sorted (fun a b => a ≤ b)
       (sortByNum (fun n => n) (c9Blocks.map (fun b => b.1)))) :=
  ⟨by decide,
   claim8_pending_id_delivery_caches_all_ascending cexVerifyOK c9St 1 [cexH9] c9Blocks
     (by decide)⟩

theorem U_eq : U = 18446744073709551616 := by norm_num [U]

theorem requestHeadersNotFromRange_first_miss (cache : List Header)
    (reqID hb hk ptg : Nat)
    (hmiss : GetCachedHeader cache hk hb = none) :
    requestHeadersNotFromRange cache reqID hb hk ptg = ([], ⟨reqID, hk, hb, usub ptg 0⟩) := by
  unfold requestHeadersNotFromRange
  have hwalk : ∀ fuel, cacheWalk cache fuel hb hk = [] := by
    intro fuel
    cases fuel with
    | zero => rfl
    | succ f => simp [cacheWalk, hmiss]
  dsimp only
  rw [hwalk]
  simp

/-- C3 counterexample: block numbers near the top of the `uint64` range make
the comparison `n >= from+uint64(k)` at `process.go:321` wrap.  Here
`from = 2^64 - 10`, `n = 2^64 - 5`, `k = 100`: the sum wraps to 90, the code
takes the "enough in-batch ancestors" branch and emits a count-0 request from
the header's own parent, whereas the claim's formula demands count
`from - (n - k) = 95` from origin `from - 1` with the first header's parent
hash. -/
theorem claim3_counterexample :
    (requestParentHeaders (fun _ => 100) [] 1 c3WrapHdr [c3WrapFirst, c3WrapHdr]).2.2 =
      some ⟨1, c3WrapHdr.parentHash, c3WrapHdr.number, 0⟩ ∧
    c3WrapHdr.number - 100 < c3WrapFirst.number ∧
    c3WrapFirst.number - (c3WrapHdr.number - 100) = 95 := by
  refine ⟨?_, by decide, by decide⟩
  decide

/-- C3 (amended): for a header `hdr` strictly inside a sorted batch
`first :: rest` spanning `[first.number, last.number]`, with `k = needed hdr`
ancestors required (`0 < k < 2^63`, a Go `int`), no cached header under either
candidate fetch origin, and — the overflow proviso the counterexample forces —
`first.number + k` within the `uint64` range: if
`hdr.number - k >= first.number` the per-header fetch request has count 0;
otherwise its count is `first.number - (hdr.number - k)` and its origin is
block `first.number - 1` with the batch's first header's parent hash (not
`hdr`'s own parent). -/
theorem claim3_in_batch_header_fetch_count
    (needed : Header → Nat) (cache : List Header) (reqID : Nat)
    (hdr first : Header) (rest : List Header)
    (hk : 0 < needed hdr)
    (hk63 : needed hdr < 2 ^ 63)
    (hfrom1 : 1 ≤ first.number)
    (hnU : hdr.number < U)
    (hnowrap : first.number + needed hdr < U)
    (hlow : first.number < hdr.number)
    (hhigh : hdr.number ≤ ((first :: rest).getLastD dummyHeader).number)
    (hkle : needed hdr ≤ hdr.number)
    (hmiss0 : GetCachedHeader cache hdr.parentHash hdr.number = none)
    (hmiss1 : GetCachedHeader cache first.parentHash (first.number - 1) = none) :
    ∃ r, (requestParentHeaders needed cache reqID hdr (first :: rest)).2.2 = some r ∧
      (first.number ≤ hdr.number - needed hdr → r.number = 0) ∧
      (hdr.number - needed hdr < first.number →
        r.number = first.number - (hdr.number - needed hdr) ∧
        r.highestBlockNumber = first.number - 1 ∧
        r.highestHash = first.parentHash) := by
  have hk0 : ¬ (needed hdr = 0) := by omega
  have huadd : uadd first.number (needed hdr) = first.number + needed hdr := by
    unfold uadd
    rw [U_eq] at hnowrap ⊢
    omega
  by_cases hc : first.number + needed hdr ≤ hdr.number
  · -- the batch itself can supply every needed ancestor: count 0
    have hreq : (requestParentHeaders needed cache reqID hdr (first :: rest)).2.2 =
        some ⟨reqID, hdr.parentHash, hdr.number, usub 0 0⟩ := by
      unfold requestParentHeaders
      rw [if_neg hk0]
      dsimp only [List.headD_cons]
      have hin : first.number < hdr.number ∧
          hdr.number ≤ ((first :: rest).getLastD dummyHeader).number := ⟨hlow, hhigh⟩
      rw [if_pos hin, huadd, if_pos hc]
      simp only [if_neg (show ¬ ((0:Int) < 0) by norm_num)]
      rw [show (((0:Int) % (U:Int)).toNat) = 0 by simp]
      rw [requestHeadersNotFromRange_first_miss cache reqID hdr.number hdr.parentHash 0
        hmiss0]
    refine ⟨_, hreq, ?_, ?_⟩
    · intro _
      show usub 0 0 = 0
      unfold usub
      rw [U_eq]
    · intro hcontra
      omega
  · -- shortfall: count `first.number - (hdr.number - k)`, origin `first.number - 1`
    have hpta_eq : wrapInt64 (toInt64 first.number -
        wrapInt64 (toInt64 hdr.number - (needed hdr : Int))) =
        ((first.number : Int) + (needed hdr : Int)) - (hdr.number : Int) := by
      have h63n : (2:Nat) ^ 63 = 9223372036854775808 := by norm_num
      have h63i : (2:Int) ^ 63 = 9223372036854775808 := by norm_num
      unfold wrapInt64 toInt64
      simp only [U_eq, h63n, h63i]
      rw [U_eq] at hnU hnowrap
      rw [h63n] at hk63
      split_ifs <;> omega
    have hpta : (0:Int) < wrapInt64 (toInt64 first.number -
        wrapInt64 (toInt64 hdr.number - (needed hdr : Int))) := by
      rw [hpta_eq]
      omega
    have hptaN : ((wrapInt64 (toInt64 first.number -
        wrapInt64 (toInt64 hdr.number - (needed hdr : Int)))) % (U:Int)).toNat =
        first.number - (hdr.number - needed hdr) := by
      rw [hpta_eq]
      rw [U_eq] at hnU hnowrap ⊢
      omega
    have husub1 : usub first.number 1 = first.number - 1 := by
      unfold usub
      rw [U_eq]
      rw [U_eq] at hnU
      omega
    have hreq : (requestParentHeaders needed cache reqID hdr (first :: rest)).2.2 =
        some ⟨reqID, first.parentHash, first.number - 1,
          usub (first.number - (hdr.number - needed hdr)) 0⟩ := by
      unfold requestParentHeaders
      rw [if_neg hk0]
      dsimp only [List.headD_cons]
      have hin : first.number < hdr.number ∧
          hdr.number ≤ ((first :: rest).getLastD dummyHeader).number := ⟨hlow, hhigh⟩
      rw [if_pos hin, huadd, if_neg hc]
      simp only [if_pos hpta]
      rw [hptaN, husub1]
      rw [requestHeadersNotFromRange_first_miss cache reqID (first.number - 1)
        first.parentHash (first.number - (hdr.number - needed hdr)) hmiss1]
    refine ⟨_, hreq, ?_, ?_⟩
    · intro hcontra
      omega
    · intro _
      refine ⟨?_, rfl, rfl⟩
      show usub (first.number - (hdr.number - needed hdr)) 0 =
        first.number - (hdr.number - needed hdr)
      unfold usub
      rw [U_eq]
      rw [U_eq] at hnU
      omega

/-- Witness for C3 (amended): header `cexH12` in the batch
`[cexH10, cexH11, cexH12]` with 3 required ancestors on an empty cache
(no overflow: `10 + 3 < 2^64`): count `10 - (12 - 3) = 1`, origin block 9 with
`cexH10`'s parent hash. -/
theorem claim3_in_batch_header_fetch_count_witness :
    0 < 3 ∧ (3:Nat) < 2 ^ 63 ∧ (1:Nat) ≤ 10 ∧ (12:Nat) < U ∧ (10:Nat) + 3 < U ∧
    (10:Nat) < 12 ∧
    ∃ r, (requestParentHeaders (fun _ => 3) [] 1 cexH12 [cexH10, cexH11, cexH12]).2.2 =
        some r ∧
      (cexH10.number ≤ cexH12.number - 3 → r.number = 0) ∧
      (cexH12.number - 3 < cexH10.number →
        r.number = cexH10.number - (cexH12.number - 3) ∧
        r.highestBlockNumber = cexH10.number - 1 ∧
        r.highestHash = cexH10.parentHash) :=
  ⟨by decide, by decide, by decide, by decide, by decide, by decide,
   claim3_in_batch_header_fetch_count (fun _ => 3) [] 1 cexH12 cexH10 [cexH11, cexH12]
     (by decide) (by decide) (by decide) (by decide) (by decide) (by decide) (by decide)
     (by decide) rfl rfl⟩

end Process
